import Mathlib

/-!
Verification of the result accumulation and classification pipeline of
`mlpstorage/reporting.py` (class `ReportGenerator`).

The Python source is shallowly embedded:

* Python `dict` (insertion-ordered, assignment updates in place) is embedded
  as an association list with `dictInsert` / `alookup`.
* The external `BenchmarkVerifier` collaborator is a parameter
  `Verifier : List BenchmarkRun → PARAM_VALIDATION × List String`
  (the Python class is constructed with one or several runs and exposes
  `verify()` and `issues`).
* Numeric metric values (Python `int` / `float`) are embedded as exact
  rationals; Python's `format(x, ',.1f')` rounds the exact binary value of
  the double to one decimal with ties to even, which coincides with
  round-half-even on the rational whenever the rational is exactly
  representable as a double (true for every literal used below).
* Console output is embedded as the list of printed lines together with an
  optional uncaught exception (`Option String`); an exception aborts the
  rest of the rendering, as in Python.
-/

namespace MLPStorage

/-- Modelled from the spec: compliance categories (the `PARAM_VALIDATION`
enumeration from `mlpstorage.config`, external to the source file); the
`value` strings are the lowercase member values whose `.upper()` form is
printed in report headers. -/
inductive PARAM_VALIDATION where
  | CLOSED
  | OPEN
  | INVALID
deriving DecidableEq, Repr, Inhabited

/-- Lowercase string value of a category member (Python `category.value`). -/
def PARAM_VALIDATION.value : PARAM_VALIDATION → String
  | .CLOSED => "closed"
  | .OPEN => "open"
  | .INVALID => "invalid"

/-- Display rank of a category: the fixed console ordering CLOSED, OPEN,
INVALID used by `print_results`. -/
def catRank : PARAM_VALIDATION → Nat
  | .CLOSED => 0
  | .OPEN => 1
  | .INVALID => 2

/-- Modelled from the spec: the process exit-code enumeration (`EXIT_CODE`
from `mlpstorage.config`, external to the source file); the spec requires at
least SUCCESS and FILE_NOT_FOUND. -/
inductive EXIT_CODE where
  | SUCCESS
  | FILE_NOT_FOUND
deriving DecidableEq, Repr

/-- Benchmark-type tag (external enumeration; only its printable `value` is
consumed by the reporting code). -/
structure BENCHMARK_TYPES where
  value : String
deriving DecidableEq, Repr, Inhabited

/-- Value of one metric: Python `int`/`float` scalars are exact rationals,
`list`/`tuple` of numbers are `series`, anything else is rendered by its
default string form. -/
inductive MetricValue where
  | num (q : ℚ)
  | series (l : List ℚ)
  | other (s : String)
deriving DecidableEq, Repr

/-- One discovered benchmark run (the attributes of `BenchmarkRun` consumed
by `reporting.py`). `accelerator` is `none` when absent (Python `None`). -/
structure BenchmarkRun where
  run_id : String
  benchmark_type : BENCHMARK_TYPES
  command : String
  model : String
  accelerator : Option String
  metrics : List (String × MetricValue)
deriving DecidableEq, Repr, Inhabited

/-- The `benchmark_run` field of a `Result`: a single `BenchmarkRun` for a
run-level result, a list for a workload-level result (the Python field is
dynamically typed). -/
inductive RunsField where
  | single (r : BenchmarkRun)
  | group (rs : List BenchmarkRun)
deriving DecidableEq, Repr, Inhabited

/-- The `Result` dataclass of `reporting.py`. Issues are embedded by their
rendered string form. -/
structure Result where
  multi : Bool
  benchmark_type : BENCHMARK_TYPES
  benchmark_command : String
  benchmark_model : String
  benchmark_run : RunsField
  issues : List String
  category : PARAM_VALIDATION
  metrics : List (String × MetricValue)
deriving DecidableEq, Repr, Inhabited

/-- The external `BenchmarkVerifier` collaborator: constructed from one or
several runs, it yields a category (`verify()`) and a list of issues. -/
abbrev Verifier := List BenchmarkRun → PARAM_VALIDATION × List String

section Dict

variable {κ α : Type} [DecidableEq κ]

/-- Lookup in an insertion-ordered dictionary (Python `d[k]` / `d.get(k)`). -/
def alookup : List (κ × α) → κ → Option α
  | [], _ => none
  | (k', v) :: rest, k => if k = k' then some v else alookup rest k

/-- Python dict assignment `d[k] = v`: updates an existing key in place
(keeping its position) or appends a new key at the end. -/
def dictInsert : List (κ × α) → κ → α → List (κ × α)
  | [], k, v => [(k, v)]
  | (k', v') :: rest, k, v =>
      if k = k' then (k, v) :: rest else (k', v') :: dictInsert rest k v

/-- Keys of a dictionary in insertion order (Python `d.keys()`). -/
def dictKeys (m : List (κ × α)) : List κ := m.map Prod.fst

/-- First-seen-order deduplication, continuing from an accumulator: the key
order produced by repeated Python dict insertion. -/
def firstSeenFrom (acc : List κ) (ks : List κ) : List κ :=
  ks.foldl (fun a k => if k ∈ a then a else a ++ [k]) acc

/-- First-seen-order deduplication of a list of keys. -/
def firstSeen (ks : List κ) : List κ := firstSeenFrom [] ks

end Dict

/-- The run-level `Result` built for one record in the first loop of
`accumulate_results` (`multi=False`, fields copied from the record, category
and issues from the single-record verifier invocation). -/
def runResultOf (verifier : Verifier) (r : BenchmarkRun) : Result :=
  { multi := false
    benchmark_run := RunsField.single r
    benchmark_type := r.benchmark_type
    benchmark_command := r.command
    benchmark_model := r.model
    issues := (verifier [r]).2
    category := (verifier [r]).1
    metrics := r.metrics }

/-- The first loop of `accumulate_results`: build `run_results`, keyed by
`benchmark_run.run_id`. -/
def accumulate_run_results (verifier : Verifier) (benchmark_runs : List BenchmarkRun) :
    List (String × Result) :=
  benchmark_runs.foldl
    (fun m r => dictInsert m r.run_id (runResultOf verifier r)) []

/-- The workload grouping key `(benchmark_run.model, benchmark_run.accelerator)`. -/
def wkey (r : BenchmarkRun) : String × Option String := (r.model, r.accelerator)

/-- The grouping loop of `accumulate_results`: build `workload_runs`, an
insertion-ordered dict from `(model, accelerator)` to the list of runs with
that key, appended in source order. -/
def groupWorkloadRuns (benchmark_runs : List BenchmarkRun) :
    List ((String × Option String) × List BenchmarkRun) :=
  benchmark_runs.foldl
    (fun m r => dictInsert m (wkey r) (((alookup m (wkey r)).getD []) ++ [r])) []

/-- The workload-level `Result` built for one non-empty group (`multi=True`,
descriptor fields from the first run `runs[0]`, `metrics = {}`, category and
issues from the multi-record verifier invocation on the whole group). -/
def wkResultOf (verifier : Verifier) (runs : List BenchmarkRun) : Result :=
  { multi := true
    benchmark_run := RunsField.group runs
    benchmark_type := (runs.headI).benchmark_type
    benchmark_command := (runs.headI).command
    benchmark_model := (runs.headI).model
    issues := (verifier runs).2
    category := (verifier runs).1
    metrics := [] }

/-- The final loop of `accumulate_results`: build `workload_results` from the
groups, skipping empty groups (`if not runs: continue`). -/
def accumulate_workload_results (verifier : Verifier) (benchmark_runs : List BenchmarkRun) :
    List ((String × Option String) × Result) :=
  (groupWorkloadRuns benchmark_runs).foldl
    (fun m kl =>
      match kl.2 with
      | [] => m
      | r0 :: rest => dictInsert m kl.1 (wkResultOf verifier (r0 :: rest)))
    []

/-- The last record of the list whose `run_id` equals `k` (the record whose
run-level result survives Python dict overwriting). -/
def lastKeyed : List BenchmarkRun → String → Option BenchmarkRun
  | [], _ => none
  | r :: rest, k =>
      match lastKeyed rest k with
      | some r' => some r'
      | none => if r.run_id = k then some r else none

/-- Round `10 * q` to the nearest integer with ties to even — the rounding
performed by Python's `,.1f` formatting on an exactly representable value —
computed on the numerator and denominator with integer arithmetic
(`f` is the floor of `10 * q` and `r` the nonnegative remainder, so the
fractional part compares to one half as `2 * r` compares to the
denominator). -/
def roundTenthsHalfEven (q : ℚ) : Int :=
  let n10 : Int := 10 * q.num
  let den : Int := (q.den : Int)
  let f : Int := Int.fdiv n10 den
  let r : Int := n10 - f * den
  if 2 * r < den then f
  else if den < 2 * r then f + 1
  else if f % 2 = 0 then f else f + 1

/-- Insert a comma after every third character of a reversed digit list:
helper for thousands separators. -/
def group3 : List Char → List Char
  | a :: b :: c :: d :: rest => a :: b :: c :: ',' :: group3 (d :: rest)
  | l => l

/-- Decimal digits of a natural number with thousands separators
(Python `format(n, ',d')`). -/
def withThousands (n : Nat) : String :=
  String.mk (group3 (Nat.toDigits 10 n).reverse).reverse

/-- Python `format(x, ',.1f')`: one decimal digit (round half to even),
thousands separators in the integer part. -/
def formatNum (q : ℚ) : String :=
  let n : Int := roundTenthsHalfEven q
  let sign : String := if n < 0 then "-" else ""
  let m : Nat := n.natAbs
  sign ++ withThousands (m / 10) ++ "." ++ (Nat.toDigits 10 (m % 10)).asString

/-- Python substring containment on character lists
(`pat in s` for strings). -/
def containsSub (pat : List Char) : List Char → Bool
  | [] => pat.isEmpty
  | c :: rest => pat.isPrefixOf (c :: rest) || containsSub pat rest

/-- Test `"percentage" in metric.lower()` from `print_results`. -/
def isPercentage (metric : String) : Bool :=
  containsSub "percentage".toList (metric.toList.map Char.toLower)

/-- One formatted metric line of the run report (`print_results`, metrics
loop): numeric scalars get `,.1f` formatting with a `%` suffix for
percentage-named metrics; lists format each element the same way joined by
a comma and space; anything else prints its default string form. -/
def metricLine (metric : String) (value : MetricValue) : String :=
  "\t\t- " ++ metric ++ ": " ++
    match value with
    | .num q =>
        if isPercentage metric then formatNum q ++ "%" else formatNum q
    | .series l =>
        if isPercentage metric then
          String.intercalate ", " (l.map (fun v => formatNum v ++ "%"))
        else
          String.intercalate ", " (l.map (fun v => formatNum v))
    | .other s => s

/-- String printed for an optional accelerator (Python prints `None` for an
absent value). -/
def showAccel : Option String → String
  | some a => a
  | none => "None"

/-- Uppercase a string (Python `str.upper()` on the ASCII category values). -/
def upperStr (s : String) : String := String.mk (s.toList.map Char.toUpper)

/-- Category pass header line printed by `print_results`. -/
def catHeader (c : PARAM_VALIDATION) : String :=
  "------------------------- " ++ upperStr c.value ++ " Report -------------------------"

/-- Issue lines of a result (`Issues:` with one line per issue, or the
`No issues found` marker). -/
def issueLines (issues : List String) : List String :=
  match issues with
  | [] => ["\t\t- No issues found"]
  | _ =>
      "\t    Issues:" :: issues.map (fun issue => "\t\t- " ++ issue)

/-- Metric lines of a run-level result (`Metrics:` header plus one line per
metric; nothing when the metrics dict is empty/falsy). -/
def metricsLines (metrics : List (String × MetricValue)) : List String :=
  match metrics with
  | [] => []
  | _ =>
      "\t    Metrics:" :: metrics.map (fun kv => metricLine kv.1 kv.2)

/-- Lines of one run-level block of the run report. A run-level result holds
a single record; on a `group` value Python would fail attribute lookup
(`AttributeError`), reported as an exception. -/
def runBlockLines (res : Result) : List String × Option String :=
  match res.benchmark_run with
  | .single r =>
      (["\tRunID: " ++ r.run_id,
        "\t    Benchmark Type: " ++ res.benchmark_type.value,
        "\t    Command: " ++ res.benchmark_command,
        "\t    Model: " ++ res.benchmark_model] ++
        issueLines res.issues ++ metricsLines res.metrics ++ [""],
       none)
  | .group _ => ([], some "AttributeError")

/-- The sequence of results one report pass of `print_results` visits (and
prints): the three categories in the fixed order CLOSED, OPEN, INVALID, and
within a category the results of that category in insertion order of the
mapping's values. -/
def catBlocks (vals : List Result) : List Result :=
  [PARAM_VALIDATION.CLOSED, PARAM_VALIDATION.OPEN, PARAM_VALIDATION.INVALID].flatMap
    (fun category => vals.filter (fun result => result.category = category))

/-- The sequence of run-level results visited (and printed) by the run
report of `print_results`. -/
def runReportBlocks (run_results : List (String × Result)) : List Result :=
  catBlocks (run_results.map Prod.snd)

/-- The sequence of workload-level results visited by the workload report of
`print_results`, in the same fixed category order. -/
def workloadReportBlocks (workload_results : List ((String × Option String) × Result)) :
    List Result :=
  catBlocks (workload_results.map Prod.snd)

/-- The run report of `print_results`: banner, then one pass per category in
fixed order printing that category's header and then the blocks of the
results of that category in insertion order; the first exception aborts the
remainder (blank lines emitted by bare `print` calls are not modelled). -/
def renderRunReport (run_results : List (String × Result)) : List String × Option String :=
  [PARAM_VALIDATION.CLOSED, PARAM_VALIDATION.OPEN, PARAM_VALIDATION.INVALID].foldl
    (fun st category =>
      match st.2 with
      | some _ => st
      | none =>
          ((run_results.map Prod.snd).filter
              (fun result => result.category = category)).foldl
            (fun st' res =>
              match st'.2 with
              | some _ => st'
              | none =>
                  let bl := runBlockLines res
                  (st'.1 ++ bl.1, bl.2))
            (st.1 ++ [catHeader category], none))
    (["========================= Results Report ========================="], none)

/-- Member-run lines of a workload block: one line per run of the group with
that run's own category looked up in `run_results`; a missing key raises
(`KeyError`), keeping the lines already printed. -/
def memberRunLines (run_results : List (String × Result)) :
    List BenchmarkRun → List String × Option String
  | [] => ([], none)
  | r :: rest =>
      match alookup run_results r.run_id with
      | none => ([], some "KeyError")
      | some res =>
          let tail := memberRunLines run_results rest
          (("\t\t- " ++ r.run_id ++ " - [" ++ upperStr res.category.value ++ "]") :: tail.1,
           tail.2)

/-- State of the workload-report loop: printed lines, the current value of
the local variable `workload_id` (`none` before its first assignment), and
the first uncaught exception. -/
structure WkState where
  lines : List String
  wid : Option String
  err : Option String

/-- One iteration of the workload-report loop of `print_results` for a
result of the current category. The model/accelerator classification
assigns `workload_id` for known models; for an unknown model it prints a
diagnostic and leaves `workload_id` unassigned (the source has no `continue`
there), so the following `WorkloadID` line reads a stale value — or raises
`UnboundLocalError` when no earlier iteration assigned one. -/
def wkStep (llm_models models : List String) (run_results : List (String × Result))
    (st : WkState) (res : Result) : WkState :=
  match st.err with
  | some _ => st
  | none =>
      let st1 : WkState :=
        if res.benchmark_model ∈ llm_models then
          { st with wid := some ("Checkpointing - " ++ res.benchmark_model) }
        else if res.benchmark_model ∈ models then
          match res.benchmark_run with
          | .group (r0 :: _) =>
              { st with wid := some ("Training - " ++ res.benchmark_model ++
                  ", Accelerator: " ++ showAccel r0.accelerator) }
          | .group [] => { st with err := some "IndexError" }
          | .single _ => { st with err := some "TypeError" }
        else
          { st with lines := st.lines ++
              ["Unknown workload type: " ++ res.benchmark_model] }
      match st1.err with
      | some _ => st1
      | none =>
          match st1.wid with
          | none =>
              { st1 with
                err := some "UnboundLocalError: local variable workload_id referenced before assignment" }
          | some w =>
              let base := st1.lines ++
                ["\tWorkloadID: " ++ w,
                 "\t    Benchmark Type: " ++ res.benchmark_type.value] ++
                (if res.benchmark_command ≠ "" then
                  ["\t    Command: " ++ res.benchmark_command] else []) ++
                ["\t    Runs: "]
              match res.benchmark_run with
              | .group rs =>
                  let ml := memberRunLines run_results rs
                  match ml.2 with
                  | some e => { lines := base ++ ml.1, wid := some w, err := some e }
                  | none =>
                      { lines := base ++ ml.1 ++ issueLines res.issues ++ [""],
                        wid := some w, err := none }
              | .single _ => { st1 with err := some "TypeError" }

/-- The workload report of `print_results`: banner, then one pass per
category in fixed order; `workload_id` is a single local variable threaded
through all iterations, and the first exception aborts everything after it. -/
def renderWorkloadReport (llm_models models : List String)
    (run_results : List (String × Result))
    (workload_results : List ((String × Option String) × Result)) :
    List String × Option String :=
  let final :=
    [PARAM_VALIDATION.CLOSED, PARAM_VALIDATION.OPEN, PARAM_VALIDATION.INVALID].foldl
      (fun (st : WkState) category =>
        match st.err with
        | some _ => st
        | none =>
            ((workload_results.map Prod.snd).filter
                (fun result => result.category = category)).foldl
              (wkStep llm_models models run_results)
              { st with lines := st.lines ++ [catHeader category] })
      { lines := ["========================= Submissions Report ========================="],
        wid := none, err := none }
  (final.lines, final.err)

/-- One leaf value of a flattened record: either the not-a-number sentinel
or an ordinary value embedded by its string form (`csv.DictWriter` writes
`str(value)`). -/
inductive CsvValue where
  | nan
  | str (s : String)
deriving DecidableEq, Repr

/-- String written to the CSV cell for a value. -/
def cellStr : CsvValue → String
  | .nan => "nan"
  | .str s => s

/-- A flattened record: single-level mapping from joined key paths to leaf
values (the image of `flatten_nested_dict`). -/
abbrev Flat := List (String × CsvValue)

/-- Modelled from the spec: `remove_nan_values` (from `mlpstorage.utils`,
external to the source file) drops the keys whose value is the not-a-number
sentinel. -/
def remove_nan_values (r : Flat) : Flat :=
  r.filter (fun kv => kv.2 ≠ CsvValue.nan)

/-- Quoting rule of `csv.DictWriter`'s default dialect (QUOTE_MINIMAL):
a field containing the delimiter, the quote character or a line break is
quoted, with embedded quotes doubled. -/
def csvQuote (s : String) : String :=
  if s.toList.any (fun c => c = ',' || c = '"' || c = '\n' || c = '\r') then
    "\"" ++ String.mk (s.toList.flatMap (fun c => if c = '"' then ['"', '"'] else [c])) ++ "\""
  else s

/-- The flattened records handed to `csv.DictWriter`: each record flattened
by the external `flatten_nested_dict` (the parameter `flatten`), then its
NaN-valued keys dropped. -/
def csvFlattened {δ : Type} (flatten : δ → Flat) (results : List δ) : List Flat :=
  (results.map flatten).map remove_nan_values

/-- The `fieldnames` of `write_csv_file`: the union of the keys of all
flattened records (a Python `set`, embedded in first-seen order before
sorting), sorted (`sorted(fieldnames)`). -/
def csvHeader {δ : Type} (flatten : δ → Flat) (results : List δ) : List String :=
  List.insertionSort (· ≤ ·)
    ((csvFlattened flatten results).foldl
      (fun s r => firstSeenFrom s (r.map Prod.fst)) [])

/-- The data rows written by `csv_writer.writerows`: one row per record in
order, each cell looked up by field name with `""` for an absent key
(`csv.DictWriter`'s default `restval`). -/
def csvRows {δ : Type} (flatten : δ → Flat) (results : List δ) : List (List String) :=
  (csvFlattened flatten results).map (fun r =>
    (csvHeader flatten results).map (fun k =>
      match alookup r k with
      | some v => cellStr v
      | none => ""))

/-- The table written by `write_csv_file`: the header row first
(`writeheader`), then the data rows (`writerows`). -/
def csvTable {δ : Type} (flatten : δ → Flat) (results : List δ) : List (List String) :=
  csvHeader flatten results :: csvRows flatten results

/-- The text of `results.csv` produced by `write_csv_file`: every row —
header first — is comma-joined with minimal quoting and terminated by a
bare newline (`lineterminator='\n'`). -/
def write_csv_file {δ : Type} (flatten : δ → Flat) (results : List δ) : String :=
  String.join ((csvTable flatten results).map
    (fun row => String.intercalate "," (row.map csvQuote) ++ "\n"))

/-- Observable steps of one reporting invocation, used to order the
existence check against discovery, verification, rendering and file
writes. -/
inductive Event where
  | checkDirExists
  | discoverRuns
  | verifyRuns
  | printReport
  | writeCsvFile
  | writeJsonFile
deriving DecidableEq, Repr, BEq

/-- Outcome of `ReportGenerator.__init__`: either the process exited with a
code (`sys.exit`) or the object finished initializing. -/
inductive InitOutcome where
  | exited (code : EXIT_CODE)
  | initialized
deriving DecidableEq, Repr

/-- Trace of `ReportGenerator.__init__`: the results-directory existence
check runs first; when it fails the process exits with FILE_NOT_FOUND, and
only otherwise do `accumulate_results` (discovery then verification) and
`print_results` run. -/
def reportGenerator_init (dirExists : Bool) : List Event × InitOutcome :=
  let checked : List Event := [Event.checkDirExists]
  if dirExists then
    (checked ++ [Event.discoverRuns, Event.verifyRuns, Event.printReport],
     InitOutcome.initialized)
  else
    (checked, InitOutcome.exited EXIT_CODE.FILE_NOT_FOUND)

/-- Modelled from the spec: a full reporting invocation constructs the
`ReportGenerator` (whose `__init__` performs the single existence check) and
then calls `generate_reports`, which writes the CSV and JSON files and
returns SUCCESS; the existence check is not repeated. -/
def reportInvocation (dirExists : Bool) : List Event × EXIT_CODE :=
  let ini := reportGenerator_init dirExists
  match ini.2 with
  | InitOutcome.exited code => (ini.1, code)
  | InitOutcome.initialized =>
      (ini.1 ++ [Event.writeCsvFile, Event.writeJsonFile], EXIT_CODE.SUCCESS)

/-- Example run: a training run of model `unet3d` on accelerator `a100`. -/
def rEx1 : BenchmarkRun :=
  { run_id := "r1"
    benchmark_type := { value := "training" }
    command := "datagen"
    model := "unet3d"
    accelerator := some "a100"
    metrics := [("read_throughput_percentage", MetricValue.num (mkRat 42567 1000))] }

/-- Example run: a second `unet3d`/`a100` run, so it shares `rEx1`'s
workload key. -/
def rEx2 : BenchmarkRun :=
  { run_id := "r2"
    benchmark_type := { value := "training" }
    command := "run"
    model := "unet3d"
    accelerator := some "a100"
    metrics := [("latency_ms", MetricValue.series [1, mkRat 9 4])] }

/-- Example run: a checkpointing run with no accelerator, a distinct
workload key. -/
def rEx3 : BenchmarkRun :=
  { run_id := "r3"
    benchmark_type := { value := "checkpointing" }
    command := "run"
    model := "llama3-8b"
    accelerator := none
    metrics := [] }

/-- Example run reusing `rEx1`'s run identifier with different contents, to
exercise the silent-overwrite behaviour. -/
def rEx1dup : BenchmarkRun :=
  { run_id := "r1"
    benchmark_type := { value := "training" }
    command := "rerun"
    model := "unet3d"
    accelerator := some "h100"
    metrics := [] }

/-- Example verifier: run `r2` is INVALID with one issue on its own, every
other single run is CLOSED, and every multi-run invocation is OPEN with a
cross-run issue. -/
def vEx : Verifier := fun runs =>
  match runs with
  | [r] =>
      if r.run_id = "r2" then (PARAM_VALIDATION.INVALID, ["missing checksum"])
      else (PARAM_VALIDATION.CLOSED, [])
  | _ => (PARAM_VALIDATION.OPEN, ["cross-run variance"])

/-- Example run-level results for the runs `rEx1`, `rEx2`. -/
def runResEx : List (String × Result) := accumulate_run_results vEx [rEx1, rEx2]

/-- Example workload-level results for the runs `rEx1`, `rEx2` (one group). -/
def wkResEx : List ((String × Option String) × Result) :=
  accumulate_workload_results vEx [rEx1, rEx2]

/-- Example workload-level result whose model is in neither model set. -/
def resUnknownEx : Result :=
  { multi := true
    benchmark_type := { value := "training" }
    benchmark_command := "run"
    benchmark_model := "mystery"
    benchmark_run := RunsField.group [rEx1]
    issues := []
    category := PARAM_VALIDATION.OPEN
    metrics := [] }

/-- Example checkpointing-model set (`LLM_MODELS`). -/
def llmModelsEx : List String := ["llama3-8b"]

/-- Example training-model set (`MODELS`). -/
def modelsEx : List String := ["unet3d", "resnet50"]

/-- Example flattened records for the CSV writer. -/
def csvResultsEx : List Flat :=
  [[("b", CsvValue.str "1"), ("a", CsvValue.nan)], [("a", CsvValue.str "2")]]

section DictLemmas

variable {κ α : Type} [DecidableEq κ]

theorem alookup_dictInsert_self (m : List (κ × α)) (k : κ) (v : α) :
    alookup (dictInsert m k v) k = some v := by
  induction m with
  | nil => simp [dictInsert, alookup]
  | cons hd tl ih =>
      obtain ⟨k', v'⟩ := hd
      by_cases h : k = k'
      · simp [dictInsert, h, alookup]
      · simp [dictInsert, h, alookup, ih]

theorem alookup_dictInsert_ne (m : List (κ × α)) (k k' : κ) (v : α) (h : k' ≠ k) :
    alookup (dictInsert m k v) k' = alookup m k' := by
  induction m with
  | nil => simp [dictInsert, alookup, h]
  | cons hd tl ih =>
      obtain ⟨k0, v0⟩ := hd
      by_cases hk : k = k0
      · subst hk
        simp [dictInsert, alookup, h]
      · by_cases hk' : k' = k0
        · simp [dictInsert, hk, alookup, hk']
        · simp [dictInsert, hk, alookup, hk', ih]

theorem dictKeys_dictInsert (m : List (κ × α)) (k : κ) (v : α) :
    dictKeys (dictInsert m k v) =
      if k ∈ dictKeys m then dictKeys m else dictKeys m ++ [k] := by
  induction m with
  | nil => simp [dictInsert, dictKeys]
  | cons hd tl ih =>
      obtain ⟨k0, v0⟩ := hd
      by_cases hk : k = k0
      · subst hk
        simp [dictInsert, dictKeys]
      · simp only [dictInsert, if_neg hk, dictKeys, List.map_cons, List.mem_cons]
        simp only [dictKeys] at ih
        by_cases hmem : k ∈ tl.map Prod.fst
        · simp [hmem, hk, ih]
        · simp [hmem, hk, ih]

theorem mem_dictInsert (m : List (κ × α)) (k : κ) (v : α) (kl : κ × α)
    (h : kl ∈ dictInsert m k v) : kl = (k, v) ∨ kl ∈ m := by
  induction m with
  | nil => simpa [dictInsert] using h
  | cons hd tl ih =>
      obtain ⟨k0, v0⟩ := hd
      by_cases hk : k = k0
      · subst hk
        rcases (by simpa [dictInsert] using h : kl = (k, v) ∨ kl ∈ tl) with h1 | h1
        · exact Or.inl h1
        · exact Or.inr (List.mem_cons_of_mem _ h1)
      · rcases (by simpa [dictInsert, hk] using h :
            kl = (k0, v0) ∨ kl ∈ dictInsert tl k v) with h1 | h1
        · exact Or.inr (by simp [h1])
        · rcases ih h1 with h2 | h2
          · exact Or.inl h2
          · exact Or.inr (List.mem_cons_of_mem _ h2)

theorem mem_alookup (m : List (κ × α)) (k : κ) (v : α)
    (nodup : (dictKeys m).Nodup) (hm : (k, v) ∈ m) : alookup m k = some v := by
  induction m with
  | nil => simp at hm
  | cons hd tl ih =>
      obtain ⟨k0, v0⟩ := hd
      rw [dictKeys, List.map_cons, List.nodup_cons] at nodup
      rcases List.mem_cons.mp hm with h1 | h1
      · obtain ⟨hk, hv⟩ := Prod.mk.injEq .. ▸ h1
        simp [alookup, hk, hv]
      · have hk : k ≠ k0 := by
          intro hkk
          subst hkk
          exact nodup.1 (List.mem_map.mpr ⟨(k, v), h1, rfl⟩)
        simp only [alookup, if_neg hk]
        exact ih nodup.2 h1

theorem alookup_eq_none_of_not_mem_keys (m : List (κ × α)) (k : κ)
    (h : k ∉ dictKeys m) : alookup m k = none := by
  induction m with
  | nil => simp [alookup]
  | cons hd tl ih =>
      obtain ⟨k0, v0⟩ := hd
      rw [dictKeys, List.map_cons, List.mem_cons] at h
      push_neg at h
      simp only [alookup, if_neg h.1]
      exact ih h.2

theorem firstSeenFrom_nil (acc : List κ) : firstSeenFrom acc [] = acc := rfl

theorem firstSeenFrom_cons (acc : List κ) (k : κ) (ks : List κ) :
    firstSeenFrom acc (k :: ks) =
      firstSeenFrom (if k ∈ acc then acc else acc ++ [k]) ks := rfl

theorem mem_firstSeenFrom (ks : List κ) (acc : List κ) (k : κ) :
    k ∈ firstSeenFrom acc ks ↔ k ∈ acc ∨ k ∈ ks := by
  induction ks generalizing acc with
  | nil => simp [firstSeenFrom_nil]
  | cons k0 ks ih =>
      rw [firstSeenFrom_cons, ih]
      by_cases h : k0 ∈ acc
      · simp only [if_pos h, List.mem_cons]
        constructor
        · rintro (h1 | h1)
          · exact Or.inl h1
          · exact Or.inr (Or.inr h1)
        · rintro (h1 | h1 | h1)
          · exact Or.inl h1
          · exact Or.inl (h1 ▸ h)
          · exact Or.inr h1
      · simp only [if_neg h, List.mem_append, List.mem_singleton, List.mem_cons]
        tauto

theorem firstSeenFrom_nodup (ks : List κ) (acc : List κ) (h : acc.Nodup) :
    (firstSeenFrom acc ks).Nodup := by
  induction ks generalizing acc with
  | nil => simpa [firstSeenFrom_nil] using h
  | cons k0 ks ih =>
      rw [firstSeenFrom_cons]
      by_cases hmem : k0 ∈ acc
      · simpa [hmem] using ih acc h
      · refine (if_neg hmem) ▸ ih (acc ++ [k0]) ?_
        simpa [List.nodup_append] using ⟨h, hmem⟩

theorem firstSeenFrom_of_nodup (ks : List κ) (acc : List κ)
    (h : ks.Nodup) (hdisj : ∀ k ∈ ks, k ∉ acc) :
    firstSeenFrom acc ks = acc ++ ks := by
  induction ks generalizing acc with
  | nil => simp [firstSeenFrom_nil]
  | cons k0 ks ih =>
      rw [firstSeenFrom_cons, if_neg (hdisj k0 (by simp))]
      rw [List.nodup_cons] at h
      rw [ih (acc ++ [k0]) h.2 ?_, List.append_assoc]
      · simp
      · intro k hk
        simp only [List.mem_append, List.mem_singleton]
        push_neg
        refine ⟨hdisj k (by simp [hk]), ?_⟩
        intro hkk
        exact h.1 (hkk ▸ hk)

end DictLemmas

theorem lastKeyed_mem (l : List BenchmarkRun) (k : String) (r : BenchmarkRun)
    (h : lastKeyed l k = some r) : r ∈ l ∧ r.run_id = k := by
  induction l with
  | nil => simp [lastKeyed] at h
  | cons r0 rest ih =>
      rw [lastKeyed] at h
      cases hrest : lastKeyed rest k with
      | some r' =>
          rw [hrest] at h
          have hr : r' = r := by simpa using h
          subst hr
          obtain ⟨hmem, hid⟩ := ih hrest
          exact ⟨List.mem_cons_of_mem _ hmem, hid⟩
      | none =>
          rw [hrest] at h
          by_cases hid : r0.run_id = k
          · rw [if_pos hid] at h
            obtain rfl := Option.some.inj h
            exact ⟨by simp, hid⟩
          · simp [hid] at h

theorem lastKeyed_isSome_of_mem (l : List BenchmarkRun) (r : BenchmarkRun)
    (h : r ∈ l) : ∃ r', lastKeyed l r.run_id = some r' := by
  induction l with
  | nil => simp at h
  | cons r0 rest ih =>
      rw [lastKeyed]
      cases hrest : lastKeyed rest r.run_id with
      | some r' => exact ⟨r', rfl⟩
      | none =>
          rcases List.mem_cons.mp h with h1 | h1
          · subst h1
            exact ⟨r, by simp⟩
          · obtain ⟨r', hr'⟩ := ih h1
            rw [hr'] at hrest
            exact absurd hrest (by simp)

theorem lastKeyed_of_nodup (l : List BenchmarkRun) (r : BenchmarkRun)
    (nodup : (l.map (fun x => x.run_id)).Nodup) (h : r ∈ l) :
    lastKeyed l r.run_id = some r := by
  induction l with
  | nil => simp at h
  | cons r0 rest ih =>
      rw [List.map_cons, List.nodup_cons] at nodup
      rcases List.mem_cons.mp h with h1 | h1
      · subst h1
        rw [lastKeyed]
        cases hrest : lastKeyed rest r.run_id with
        | some r' =>
            obtain ⟨hmem, hid⟩ := lastKeyed_mem rest r.run_id r' hrest
            exact absurd (List.mem_map.mpr ⟨r', hmem, hid⟩) nodup.1
        | none => simp
      · rw [lastKeyed, ih nodup.2 h1]

theorem accumulate_go_lookup (v : Verifier) (l : List BenchmarkRun)
    (m : List (String × Result)) (k : String) :
    alookup (l.foldl (fun m r => dictInsert m r.run_id (runResultOf v r)) m) k =
      match lastKeyed l k with
      | some r => some (runResultOf v r)
      | none => alookup m k := by
  induction l generalizing m with
  | nil => simp [lastKeyed]
  | cons r0 rest ih =>
      rw [List.foldl_cons, ih, lastKeyed]
      cases hrest : lastKeyed rest k with
      | some r' => simp
      | none =>
          by_cases hid : r0.run_id = k
          · rw [if_pos hid]
            simpa using hid ▸ alookup_dictInsert_self m r0.run_id (runResultOf v r0)
          · rw [if_neg hid]
            simpa using alookup_dictInsert_ne m r0.run_id k (runResultOf v r0)
              (fun hkk => hid hkk.symm)

theorem accumulate_go_keys (v : Verifier) (l : List BenchmarkRun)
    (m : List (String × Result)) :
    dictKeys (l.foldl (fun m r => dictInsert m r.run_id (runResultOf v r)) m) =
      firstSeenFrom (dictKeys m) (l.map (fun r => r.run_id)) := by
  induction l generalizing m with
  | nil => simp [firstSeenFrom_nil]
  | cons r0 rest ih =>
      rw [List.foldl_cons, ih, List.map_cons, firstSeenFrom_cons,
        dictKeys_dictInsert]

theorem group_go_lookup (l : List BenchmarkRun)
    (m : List ((String × Option String) × List BenchmarkRun))
    (k : String × Option String) :
    alookup
        (l.foldl
          (fun m r => dictInsert m (wkey r) (((alookup m (wkey r)).getD []) ++ [r])) m)
        k =
      match alookup m k with
      | some base => some (base ++ l.filter (fun r => wkey r = k))
      | none =>
          if l.filter (fun r => wkey r = k) = [] then none
          else some (l.filter (fun r => wkey r = k)) := by
  induction l generalizing m with
  | nil =>
      cases h : alookup m k with
      | some base => simp [h]
      | none => simp [h]
  | cons r0 rest ih =>
      rw [List.foldl_cons, ih]
      by_cases hk : wkey r0 = k
      · rw [hk, alookup_dictInsert_self]
        cases h : alookup m k with
        | some base =>
            simp [List.filter_cons, hk, h]
        | none =>
            simp [List.filter_cons, hk, h]
      · rw [alookup_dictInsert_ne _ _ _ _ (fun hkk => hk hkk.symm)]
        have hfilter : (r0 :: rest).filter (fun r => wkey r = k) =
            rest.filter (fun r => wkey r = k) := by
          simp [List.filter_cons, hk]
        rw [hfilter]

theorem group_go_keys (l : List BenchmarkRun)
    (m : List ((String × Option String) × List BenchmarkRun)) :
    dictKeys
        (l.foldl
          (fun m r => dictInsert m (wkey r) (((alookup m (wkey r)).getD []) ++ [r])) m) =
      firstSeenFrom (dictKeys m) (l.map wkey) := by
  induction l generalizing m with
  | nil => simp [firstSeenFrom_nil]
  | cons r0 rest ih =>
      rw [List.foldl_cons, ih, List.map_cons, firstSeenFrom_cons,
        dictKeys_dictInsert]

theorem groupWorkloadRuns_lookup (l : List BenchmarkRun) (k : String × Option String) :
    alookup (groupWorkloadRuns l) k =
      if l.filter (fun r => wkey r = k) = [] then none
      else some (l.filter (fun r => wkey r = k)) := by
  rw [groupWorkloadRuns, group_go_lookup]
  simp [alookup]

theorem groupWorkloadRuns_keys (l : List BenchmarkRun) :
    dictKeys (groupWorkloadRuns l) = firstSeen (l.map wkey) := by
  rw [groupWorkloadRuns, group_go_keys]
  simp [dictKeys, firstSeen]

theorem groupWorkloadRuns_keys_nodup (l : List BenchmarkRun) :
    (dictKeys (groupWorkloadRuns l)).Nodup := by
  rw [groupWorkloadRuns_keys]
  exact firstSeenFrom_nodup _ _ List.nodup_nil

theorem groupWorkloadRuns_mem (l : List BenchmarkRun)
    (kl : (String × Option String) × List BenchmarkRun)
    (h : kl ∈ groupWorkloadRuns l) :
    kl.2 = l.filter (fun r => wkey r = kl.1) ∧ kl.2 ≠ [] := by
  have hlook : alookup (groupWorkloadRuns l) kl.1 = some kl.2 := by
    obtain ⟨k, g⟩ := kl
    exact mem_alookup _ _ _ (groupWorkloadRuns_keys_nodup l) h
  rw [groupWorkloadRuns_lookup] at hlook
  by_cases hf : l.filter (fun r => wkey r = kl.1) = []
  · rw [if_pos hf] at hlook
    exact absurd hlook (by simp)
  · rw [if_neg hf] at hlook
    refine ⟨(Option.some.inj hlook).symm, ?_⟩
    intro hnil
    exact hf ((Option.some.inj hlook).trans hnil)

theorem wk_go_mem (v : Verifier)
    (gs : List ((String × Option String) × List BenchmarkRun))
    (m : List ((String × Option String) × Result))
    (kl : (String × Option String) × Result)
    (h : kl ∈ gs.foldl
        (fun m kl =>
          match kl.2 with
          | [] => m
          | r0 :: rest => dictInsert m kl.1 (wkResultOf v (r0 :: rest))) m) :
    kl ∈ m ∨ ∃ rs, (kl.1, rs) ∈ gs ∧ rs ≠ [] ∧ kl.2 = wkResultOf v rs := by
  induction gs generalizing m with
  | nil => exact Or.inl h
  | cons g0 rest ih =>
      rw [List.foldl_cons] at h
      rcases ih _ h with h1 | h1
      · cases hg : g0.2 with
        | nil =>
            rw [hg] at h1
            exact Or.inl h1
        | cons r0 grest =>
            rw [hg] at h1
            rcases mem_dictInsert _ _ _ _ h1 with h2 | h2
            · have hk1 : kl.1 = g0.1 := by rw [h2]
              refine Or.inr ⟨r0 :: grest, ?_, by simp, by rw [h2]⟩
              rw [hk1]
              have hpair : (g0.1, r0 :: grest) = g0 := by
                obtain ⟨gk, gl⟩ := g0
                simp only at hg
                rw [hg]
              rw [hpair]
              simp
            · exact Or.inl h2
      · obtain ⟨rs, hrs, hne, heq⟩ := h1
        exact Or.inr ⟨rs, List.mem_cons_of_mem _ hrs, hne, heq⟩

theorem wk_go_notin (v : Verifier)
    (gs : List ((String × Option String) × List BenchmarkRun))
    (m : List ((String × Option String) × Result))
    (k : String × Option String) (h : k ∉ gs.map Prod.fst) :
    alookup
        (gs.foldl
          (fun m kl =>
            match kl.2 with
            | [] => m
            | r0 :: rest => dictInsert m kl.1 (wkResultOf v (r0 :: rest))) m)
        k = alookup m k := by
  induction gs generalizing m with
  | nil => rfl
  | cons g0 rest ih =>
      rw [List.map_cons, List.mem_cons] at h
      push_neg at h
      rw [List.foldl_cons, ih _ h.2]
      cases hg : g0.2 with
      | nil => rfl
      | cons r0 grest => exact alookup_dictInsert_ne _ _ _ _ h.1

theorem wk_go_lookup (v : Verifier)
    (gs : List ((String × Option String) × List BenchmarkRun))
    (m : List ((String × Option String) × Result))
    (k : String × Option String) (nodup : (gs.map Prod.fst).Nodup) :
    alookup
        (gs.foldl
          (fun m kl =>
            match kl.2 with
            | [] => m
            | r0 :: rest => dictInsert m kl.1 (wkResultOf v (r0 :: rest))) m)
        k =
      match alookup gs k with
      | some rs => if rs = [] then alookup m k else some (wkResultOf v rs)
      | none => alookup m k := by
  induction gs generalizing m with
  | nil => simp [alookup]
  | cons g0 rest ih =>
      obtain ⟨gk, gl⟩ := g0
      rw [List.map_cons, List.nodup_cons] at nodup
      rw [List.foldl_cons]
      by_cases hk : k = gk
      · subst hk
        have hnotin : k ∉ rest.map Prod.fst := nodup.1
        cases gl with
        | nil =>
            rw [wk_go_notin v rest m k hnotin]
            simp [alookup]
        | cons r0 grest =>
            have := wk_go_notin v rest (dictInsert m k (wkResultOf v (r0 :: grest))) k hnotin
            simp only at this
            rw [this, alookup_dictInsert_self]
            simp [alookup]
      · have halt : alookup ((gk, gl) :: rest) k = alookup rest k := by
          simp [alookup, hk]
        rw [halt]
        cases gl with
        | nil => exact ih m nodup.2
        | cons r0 grest =>
            rw [ih _ nodup.2]
            cases hrest : alookup rest k with
            | some rs =>
                cases hrs : decide (rs = []) with
                | true =>
                    have : rs = [] := of_decide_eq_true hrs
                    subst this
                    simp only [if_pos rfl]
                    exact alookup_dictInsert_ne _ _ _ _ hk
                | false =>
                    have : ¬ rs = [] := of_decide_eq_false hrs
                    simp [this]
            | none => exact alookup_dictInsert_ne _ _ _ _ hk

theorem accumulate_workload_lookup (v : Verifier) (l : List BenchmarkRun)
    (k : String × Option String) :
    alookup (accumulate_workload_results v l) k =
      if l.filter (fun r => wkey r = k) = [] then none
      else some (wkResultOf v (l.filter (fun r => wkey r = k))) := by
  rw [accumulate_workload_results, wk_go_lookup v _ _ _ (groupWorkloadRuns_keys_nodup l),
    groupWorkloadRuns_lookup]
  by_cases hf : l.filter (fun r => wkey r = k) = []
  · simp [hf, alookup]
  · simp [hf, alookup]

theorem accumulate_workload_mem (v : Verifier) (l : List BenchmarkRun)
    (kl : (String × Option String) × Result)
    (h : kl ∈ accumulate_workload_results v l) :
    kl.2 = wkResultOf v (l.filter (fun r => wkey r = kl.1)) ∧
      l.filter (fun r => wkey r = kl.1) ≠ [] := by
  rcases wk_go_mem v _ _ _ h with h1 | h1
  · simp at h1
  · obtain ⟨rs, hrs, hne, heq⟩ := h1
    obtain ⟨hfil, -⟩ := groupWorkloadRuns_mem l (kl.1, rs) hrs
    simp only at hfil
    rw [hfil] at heq hne
    exact ⟨heq, hne⟩

theorem catBlocks_eq (vals : List Result) :
    catBlocks vals =
      vals.filter (fun res => res.category = PARAM_VALIDATION.CLOSED) ++
        (vals.filter (fun res => res.category = PARAM_VALIDATION.OPEN) ++
          vals.filter (fun res => res.category = PARAM_VALIDATION.INVALID)) := by
  simp [catBlocks]

theorem mem_filter_cat (vals : List Result) (c : PARAM_VALIDATION) (res : Result)
    (h : res ∈ vals.filter (fun res => res.category = c)) : res.category = c := by
  have := (List.mem_filter.mp h).2
  exact of_decide_eq_true this

theorem catBlocks_rank (vals : List Result) (n : Nat) (hn : n < (catBlocks vals).length) :
    catRank ((catBlocks vals)[n].category) =
      if n < (vals.filter (fun res => res.category = PARAM_VALIDATION.CLOSED)).length then 0
      else if n <
          (vals.filter (fun res => res.category = PARAM_VALIDATION.CLOSED)).length +
            (vals.filter (fun res => res.category = PARAM_VALIDATION.OPEN)).length then 1
      else 2 := by
  set A := vals.filter (fun res => res.category = PARAM_VALIDATION.CLOSED) with hA
  set B := vals.filter (fun res => res.category = PARAM_VALIDATION.OPEN) with hB
  set C := vals.filter (fun res => res.category = PARAM_VALIDATION.INVALID) with hC
  have hEq : catBlocks vals = A ++ (B ++ C) := catBlocks_eq vals
  have hlen : (catBlocks vals).length = A.length + (B.length + C.length) := by
    rw [hEq]
    simp
  by_cases h1 : n < A.length
  · have : (catBlocks vals)[n] = A[n] := by
      rw [getElem_congr_coll hEq]
      exact List.getElem_append_left h1
    rw [this, if_pos h1]
    have hmemA : A[n] ∈ vals.filter (fun res => res.category = PARAM_VALIDATION.CLOSED) := by
      rw [← hA]
      exact List.getElem_mem h1
    rw [mem_filter_cat vals PARAM_VALIDATION.CLOSED A[n] hmemA]
    rfl
  · have hge : A.length ≤ n := Nat.le_of_not_lt h1
    have hn' : n - A.length < B.length + C.length := by
      rw [hlen] at hn
      omega
    have hbc : n - A.length < (B ++ C).length := by
      simpa using hn'
    have step1 : (catBlocks vals)[n] = (B ++ C)[n - A.length] := by
      rw [getElem_congr_coll hEq]
      exact List.getElem_append_right hge
    by_cases h2 : n - A.length < B.length
    · have hstep2 : (B ++ C)[n - A.length] = B[n - A.length] :=
        List.getElem_append_left h2
      rw [step1, hstep2, if_neg h1, if_pos (by omega)]
      have hmemB : B[n - A.length] ∈
          vals.filter (fun res => res.category = PARAM_VALIDATION.OPEN) := by
        rw [← hB]
        exact List.getElem_mem h2
      rw [mem_filter_cat vals PARAM_VALIDATION.OPEN B[n - A.length] hmemB]
      rfl
    · have hge2 : B.length ≤ n - A.length := Nat.le_of_not_lt h2
      have hn'' : n - A.length - B.length < C.length := by omega
      have hstep2 : (B ++ C)[n - A.length] =
          C[n - A.length - B.length] := List.getElem_append_right hge2
      rw [step1, hstep2, if_neg h1, if_neg (by omega)]
      have hmemC : C[n - A.length - B.length] ∈
          vals.filter (fun res => res.category = PARAM_VALIDATION.INVALID) := by
        rw [← hC]
        exact List.getElem_mem hn''
      rw [mem_filter_cat vals PARAM_VALIDATION.INVALID C[n - A.length - B.length] hmemC]
      rfl

theorem catBlocks_rank_mono (vals : List Result) (i j : Nat)
    (hi : i < (catBlocks vals).length) (hj : j < (catBlocks vals).length)
    (h : catRank ((catBlocks vals)[i].category) < catRank ((catBlocks vals)[j].category)) :
    i < j := by
  have ri := catBlocks_rank vals i hi
  have rj := catBlocks_rank vals j hj
  rw [ri, rj] at h
  split_ifs at h <;> omega

theorem filter_cat_segment (vals : List Result) (c c' : PARAM_VALIDATION) :
    (vals.filter (fun res => res.category = c')).filter (fun res => res.category = c) =
      if c = c' then vals.filter (fun res => res.category = c) else [] := by
  by_cases h : c = c'
  · subst h
    rw [if_pos rfl, List.filter_filter]
    apply List.filter_congr
    intro a _
    simp
  · rw [if_neg h]
    rw [List.filter_eq_nil_iff]
    intro a ha
    have := mem_filter_cat vals c' a ha
    simp only [decide_eq_true_eq]
    intro hc
    exact h (hc ▸ this ▸ rfl)

theorem catBlocks_filter (vals : List Result) (c : PARAM_VALIDATION) :
    (catBlocks vals).filter (fun res => res.category = c) =
      vals.filter (fun res => res.category = c) := by
  rw [catBlocks_eq, List.filter_append, List.filter_append,
    filter_cat_segment, filter_cat_segment, filter_cat_segment]
  cases c <;> simp

theorem csv_fieldnames_mem (flats : List Flat) (init : List String) (k : String) :
    k ∈ flats.foldl (fun s r => firstSeenFrom s (r.map Prod.fst)) init ↔
      k ∈ init ∨ ∃ fr ∈ flats, k ∈ fr.map Prod.fst := by
  induction flats generalizing init with
  | nil => simp
  | cons f rest ih =>
      rw [List.foldl_cons, ih, mem_firstSeenFrom]
      simp only [List.mem_cons]
      constructor
      · rintro ((h1 | h1) | ⟨fr, hfr, h1⟩)
        · exact Or.inl h1
        · exact Or.inr ⟨f, Or.inl rfl, h1⟩
        · exact Or.inr ⟨fr, Or.inr hfr, h1⟩
      · rintro (h1 | ⟨fr, hfr | hfr, h1⟩)
        · exact Or.inl (Or.inl h1)
        · exact Or.inl (Or.inr (hfr ▸ h1))
        · exact Or.inr ⟨fr, hfr, h1⟩

theorem csv_fieldnames_nodup (flats : List Flat) (init : List String) (h : init.Nodup) :
    (flats.foldl (fun s r => firstSeenFrom s (r.map Prod.fst)) init).Nodup := by
  induction flats generalizing init with
  | nil => exact h
  | cons f rest ih => exact ih _ (firstSeenFrom_nodup _ _ h)

/-- C1: for every input sequence of run records with pairwise-distinct run
identifiers, `run_results` contains exactly N entries; the entry for each
run identifier holds that source record as its `benchmark_run` field with
`multi = false`, and its benchmark type, command, model and metrics are
copied from that record, with category and issues from the single-record
verifier invocation. -/
theorem claim_C1_run_results_complete (v : Verifier) (l : List BenchmarkRun)
    (h : (l.map (fun r => r.run_id)).Nodup) :
    (accumulate_run_results v l).length = l.length ∧
    ∀ r ∈ l,
      alookup (accumulate_run_results v l) r.run_id = some (runResultOf v r) ∧
      (runResultOf v r).multi = false ∧
      (runResultOf v r).benchmark_run = RunsField.single r ∧
      (runResultOf v r).benchmark_type = r.benchmark_type ∧
      (runResultOf v r).benchmark_command = r.command ∧
      (runResultOf v r).benchmark_model = r.model ∧
      (runResultOf v r).metrics = r.metrics ∧
      (runResultOf v r).category = (v [r]).1 ∧
      (runResultOf v r).issues = (v [r]).2 := by
  constructor
  · have hkeys : dictKeys (accumulate_run_results v l) =
        firstSeenFrom [] (l.map (fun r => r.run_id)) := by
      rw [accumulate_run_results, accumulate_go_keys]
      rfl
    have hlen : (accumulate_run_results v l).length =
        (dictKeys (accumulate_run_results v l)).length := by
      simp [dictKeys]
    rw [hlen, hkeys, firstSeenFrom_of_nodup _ _ h (by simp)]
    simp
  · intro r hr
    refine ⟨?_, rfl, rfl, rfl, rfl, rfl, rfl, rfl, rfl⟩
    rw [accumulate_run_results, accumulate_go_lookup, lastKeyed_of_nodup l r h hr]

/-- Witness for C1 at two records with distinct identifiers. -/
theorem claim_C1_witness :
    (accumulate_run_results vEx [rEx1, rEx2]).length = 2 ∧
    alookup (accumulate_run_results vEx [rEx1, rEx2]) rEx1.run_id =
      some (runResultOf vEx rEx1) := by
  have h := claim_C1_run_results_complete vEx [rEx1, rEx2] (by decide)
  exact ⟨by simpa using h.1, (h.2 rEx1 (by simp)).1⟩

/-- C2: the workload grouping partitions the records exactly by the key
`(model, accelerator)`: keys appear in first-seen order, each group is the
subsequence of input records having that key (hence in source order and
each record is in precisely one group), and two records sharing a key that
no other record shares yield one workload result containing exactly those
two records in source order. -/
theorem claim_C2_grouping (l : List BenchmarkRun) :
    dictKeys (groupWorkloadRuns l) = firstSeen (l.map wkey) ∧
    (dictKeys (groupWorkloadRuns l)).Nodup ∧
    (∀ kl ∈ groupWorkloadRuns l, kl.2 = l.filter (fun r => wkey r = kl.1)) ∧
    (∀ kl ∈ groupWorkloadRuns l, ∀ r : BenchmarkRun, r ∈ kl.2 ↔ r ∈ l ∧ wkey r = kl.1) ∧
    (∀ r ∈ l, alookup (groupWorkloadRuns l) (wkey r) =
        some (l.filter (fun r' => wkey r' = wkey r))) ∧
    ∀ (v : Verifier) (k : String × Option String) (r1 r2 : BenchmarkRun),
      l.filter (fun r => wkey r = k) = [r1, r2] →
      alookup (accumulate_workload_results v l) k = some (wkResultOf v [r1, r2]) ∧
      (wkResultOf v [r1, r2]).benchmark_run = RunsField.group [r1, r2] := by
  refine ⟨groupWorkloadRuns_keys l, groupWorkloadRuns_keys_nodup l, ?_, ?_, ?_, ?_⟩
  · intro kl hkl
    exact (groupWorkloadRuns_mem l kl hkl).1
  · intro kl hkl r
    rw [(groupWorkloadRuns_mem l kl hkl).1, List.mem_filter]
    simp
  · intro r hr
    rw [groupWorkloadRuns_lookup]
    have hmem : r ∈ l.filter (fun r' => wkey r' = wkey r) := by
      rw [List.mem_filter]
      simp [hr]
    rw [if_neg (List.ne_nil_of_mem hmem)]
  · intro v k r1 r2 hf
    rw [accumulate_workload_lookup, hf]
    exact ⟨by simp, rfl⟩

/-- Witness for C2: `rEx1` and `rEx2` alone share the key
`("unet3d", some "a100")` among three records, and produce one workload
result holding exactly both in source order. -/
theorem claim_C2_witness :
    alookup (accumulate_workload_results vEx [rEx1, rEx2, rEx3])
        ("unet3d", some "a100") = some (wkResultOf vEx [rEx1, rEx2]) ∧
    (wkResultOf vEx [rEx1, rEx2]).benchmark_run = RunsField.group [rEx1, rEx2] := by
  have h := claim_C2_grouping [rEx1, rEx2, rEx3]
  exact h.2.2.2.2.2 vEx ("unet3d", some "a100") rEx1 rEx2 (by decide)

/-- C3: every workload-level result has `multi = true`, empty metrics, its
`benchmark_run` equal to the full ordered group, its category and issues
from the multi-record verifier invocation on the entire group (the verifier
is an arbitrary parameter, so the aggregator cannot derive the category
from member categories), its descriptor fields from the first run of the
group, and it is keyed by the group's `(model, accelerator)` key. -/
theorem claim_C3_workload_result (v : Verifier) (l : List BenchmarkRun)
    (kl : (String × Option String) × Result)
    (h : kl ∈ accumulate_workload_results v l) :
    kl.2.multi = true ∧
    kl.2.metrics = [] ∧
    kl.2.benchmark_run = RunsField.group (l.filter (fun r => wkey r = kl.1)) ∧
    kl.2.category = (v (l.filter (fun r => wkey r = kl.1))).1 ∧
    kl.2.issues = (v (l.filter (fun r => wkey r = kl.1))).2 ∧
    kl.2.benchmark_type = (l.filter (fun r => wkey r = kl.1)).headI.benchmark_type ∧
    kl.2.benchmark_command = (l.filter (fun r => wkey r = kl.1)).headI.command ∧
    kl.2.benchmark_model = (l.filter (fun r => wkey r = kl.1)).headI.model ∧
    l.filter (fun r => wkey r = kl.1) ≠ [] ∧
    ∀ r ∈ l.filter (fun r => wkey r = kl.1), wkey r = kl.1 := by
  obtain ⟨heq, hne⟩ := accumulate_workload_mem v l kl h
  rw [heq]
  refine ⟨rfl, rfl, rfl, rfl, rfl, rfl, rfl, rfl, hne, ?_⟩
  intro r hr
  exact of_decide_eq_true (List.mem_filter.mp hr).2

/-- Witness for C3 at the single group of `[rEx1, rEx2]`. -/
theorem claim_C3_witness :
    (wkResultOf vEx [rEx1, rEx2]).multi = true ∧
    (wkResultOf vEx [rEx1, rEx2]).category =
      (vEx ([rEx1, rEx2].filter
        (fun r => wkey r = (("unet3d", some "a100") : String × Option String)))).1 := by
  have h := claim_C3_workload_result vEx [rEx1, rEx2]
    (("unet3d", some "a100"), wkResultOf vEx [rEx1, rEx2]) (by decide)
  exact ⟨h.1, h.2.2.2.1⟩

/-- C4: invoking report generation against a non-existent directory path
exits with FILE_NOT_FOUND before any discovery, verification, rendering or
file write, and the existence check happens exactly once, first, in every
invocation. -/
theorem claim_C4_missing_dir (b : Bool) :
    ((reportInvocation b).1.count Event.checkDirExists = 1 ∧
      (reportInvocation b).1.head? = some Event.checkDirExists) ∧
    (b = false →
      (reportInvocation b).2 = EXIT_CODE.FILE_NOT_FOUND ∧
      (reportGenerator_init b).2 = InitOutcome.exited EXIT_CODE.FILE_NOT_FOUND ∧
      (reportInvocation b).1 = [Event.checkDirExists]) := by
  cases b with
  | false => exact ⟨⟨by decide, by decide⟩, fun _ => ⟨by decide, by decide, by decide⟩⟩
  | true => exact ⟨⟨by decide, by decide⟩, fun h => Bool.noConfusion h⟩

/-- Witness for C4 at a missing directory. -/
theorem claim_C4_witness :
    (reportInvocation false).2 = EXIT_CODE.FILE_NOT_FOUND ∧
    (reportInvocation false).1 = [Event.checkDirExists] := by
  have h := claim_C4_missing_dir false
  exact ⟨(h.2 rfl).1, (h.2 rfl).2.2⟩

/-- C5: in both console reports every CLOSED result is visited (printed)
strictly before every OPEN result, which comes strictly before every
INVALID result, and within each category the results keep the insertion
order of their mapping. -/
theorem claim_C5_category_order (run_results : List (String × Result))
    (workload_results : List ((String × Option String) × Result)) :
    (∀ (i j : Nat) (hi : i < (runReportBlocks run_results).length)
        (hj : j < (runReportBlocks run_results).length),
      catRank ((runReportBlocks run_results)[i].category) <
          catRank ((runReportBlocks run_results)[j].category) → i < j) ∧
    (∀ c, (runReportBlocks run_results).filter (fun res => res.category = c) =
        (run_results.map Prod.snd).filter (fun res => res.category = c)) ∧
    (∀ (i j : Nat) (hi : i < (workloadReportBlocks workload_results).length)
        (hj : j < (workloadReportBlocks workload_results).length),
      catRank ((workloadReportBlocks workload_results)[i].category) <
          catRank ((workloadReportBlocks workload_results)[j].category) → i < j) ∧
    (∀ c, (workloadReportBlocks workload_results).filter (fun res => res.category = c) =
        (workload_results.map Prod.snd).filter (fun res => res.category = c)) := by
  refine ⟨?_, ?_, ?_, ?_⟩
  · intro i j hi hj h
    exact catBlocks_rank_mono (run_results.map Prod.snd) i j hi hj h
  · intro c
    exact catBlocks_filter (run_results.map Prod.snd) c
  · intro i j hi hj h
    exact catBlocks_rank_mono (workload_results.map Prod.snd) i j hi hj h
  · intro c
    exact catBlocks_filter (workload_results.map Prod.snd) c

/-- Witness for C5: in the example run report the CLOSED block precedes the
INVALID block. -/
theorem claim_C5_witness :
    ((runReportBlocks runResEx).filter
        (fun res => res.category = PARAM_VALIDATION.CLOSED) =
      (runResEx.map Prod.snd).filter
        (fun res => res.category = PARAM_VALIDATION.CLOSED)) ∧
    (0 : Nat) < 1 := by
  have h := claim_C5_category_order runResEx wkResEx
  exact ⟨h.2.1 PARAM_VALIDATION.CLOSED, h.1 0 1 (by decide) (by decide) (by decide)⟩

/-- C6 (evaluation of the defect): a workload whose model is in neither
model set makes `print_results` print the diagnostic and then crash with
`UnboundLocalError` when it is the first workload rendered; when an earlier
workload already assigned `workload_id`, rendering survives but reprints
the stale identifier instead of skipping it. -/
theorem claim_C6_unknown_model_eval :
    ((renderWorkloadReport llmModelsEx modelsEx runResEx
        [(("mystery", some "a100"), resUnknownEx)]).2 =
      some "UnboundLocalError: local variable workload_id referenced before assignment") ∧
    ("Unknown workload type: mystery" ∈
      (renderWorkloadReport llmModelsEx modelsEx runResEx
        [(("mystery", some "a100"), resUnknownEx)]).1) ∧
    ((renderWorkloadReport llmModelsEx modelsEx runResEx
        (wkResEx ++ [(("mystery", some "a100"), resUnknownEx)])).2 = none) ∧
    ((renderWorkloadReport llmModelsEx modelsEx runResEx
        (wkResEx ++ [(("mystery", some "a100"), resUnknownEx)])).1.count
          "\tWorkloadID: Training - unet3d, Accelerator: a100" = 2) := by
  exact ⟨by decide, by decide, by decide, by decide⟩

/-- C7 counterexample: the metric named `latency_ms` with value
`[1.0, 2.25]` renders as `1.0, 2.2` — not `1.0, 2.3` as claimed — because
`,.1f` rounds the tie 2.25 to even. -/
theorem claim_C7_counterexample :
    metricLine "latency_ms" (MetricValue.series [1, mkRat 9 4]) =
      "\t\t- latency_ms: 1.0, 2.2" ∧
    metricLine "latency_ms" (MetricValue.series [1, mkRat 9 4]) ≠
      "\t\t- latency_ms: 1.0, 2.3" := by
  exact ⟨by decide, by decide⟩

/-- C7 (amended): numeric scalar metrics format with thousands separators
and one decimal place, with a `%` suffix exactly when the metric name
contains the case-insensitive substring `percentage`; sequence metrics
format each element identically joined by a comma and space; the metric
`read_throughput_percentage` with value 42.567 renders as `42.6%`, and
`latency_ms` with value `[1.0, 2.25]` renders as `1.0, 2.2` (ties round to
even). -/
theorem claim_C7_metric_formatting :
    (∀ (name : String) (q : ℚ), isPercentage name = true →
      metricLine name (MetricValue.num q) =
        "\t\t- " ++ name ++ ": " ++ formatNum q ++ "%") ∧
    (∀ (name : String) (q : ℚ), isPercentage name = false →
      metricLine name (MetricValue.num q) = "\t\t- " ++ name ++ ": " ++ formatNum q) ∧
    (∀ (name : String) (l : List ℚ), isPercentage name = true →
      metricLine name (MetricValue.series l) =
        "\t\t- " ++ name ++ ": " ++
          String.intercalate ", " (l.map (fun v => formatNum v ++ "%"))) ∧
    (∀ (name : String) (l : List ℚ), isPercentage name = false →
      metricLine name (MetricValue.series l) =
        "\t\t- " ++ name ++ ": " ++
          String.intercalate ", " (l.map (fun v => formatNum v))) ∧
    metricLine "read_throughput_percentage" (MetricValue.num (mkRat 42567 1000)) =
      "\t\t- read_throughput_percentage: 42.6%" ∧
    metricLine "latency_ms" (MetricValue.series [1, mkRat 9 4]) =
      "\t\t- latency_ms: 1.0, 2.2" ∧
    formatNum (mkRat 1234567 100) = "12,345.7" := by
  refine ⟨?_, ?_, ?_, ?_, by decide, by decide, by decide⟩
  · intro name q h
    simp [metricLine, h, String.append_assoc]
  · intro name q h
    simp [metricLine, h, String.append_assoc]
  · intro name l h
    simp [metricLine, h, String.append_assoc]
  · intro name l h
    simp [metricLine, h, String.append_assoc]

/-- Witness for C7's amended statement at a percentage-named metric. -/
theorem claim_C7_witness :
    metricLine "read_throughput_percentage" (MetricValue.num (mkRat 42567 1000)) =
      "\t\t- " ++ "read_throughput_percentage" ++ ": " ++
        formatNum (mkRat 42567 1000) ++ "%" := by
  exact claim_C7_metric_formatting.1 "read_throughput_percentage" (mkRat 42567 1000)
    (by decide)

/-- C8: the CSV header row is the lexicographically sorted union of the key
paths of the flattened records after NaN-valued keys are dropped; it is
written first, followed by exactly one row per record with absent keys left
blank, each row terminated by a bare newline. -/
theorem claim_C8_csv_layout (δ : Type) (flatten : δ → Flat) (results : List δ) :
    csvTable flatten results = csvHeader flatten results :: csvRows flatten results ∧
    List.Sorted (· ≤ ·) (csvHeader flatten results) ∧
    (csvHeader flatten results).Nodup ∧
    (∀ k, k ∈ csvHeader flatten results ↔
        ∃ r ∈ results, k ∈ (remove_nan_values (flatten r)).map Prod.fst) ∧
    (csvRows flatten results).length = results.length ∧
    (∀ (i : Nat) (hi : i < results.length) (hr : i < (csvRows flatten results).length),
      (csvRows flatten results)[i] =
        (csvHeader flatten results).map (fun k =>
          match alookup (remove_nan_values (flatten results[i])) k with
          | some v => cellStr v
          | none => "")) ∧
    write_csv_file flatten results =
      String.join ((csvHeader flatten results :: csvRows flatten results).map
        (fun row => String.intercalate "," (row.map csvQuote) ++ "\n")) := by
  refine ⟨rfl, ?_, ?_, ?_, ?_, ?_, rfl⟩
  · exact List.sorted_insertionSort _ _
  · rw [csvHeader]
    exact (List.perm_insertionSort _ _).nodup_iff.mpr
      (csv_fieldnames_nodup _ _ List.nodup_nil)
  · intro k
    rw [csvHeader, (List.perm_insertionSort _ _).mem_iff, csv_fieldnames_mem]
    simp [csvFlattened]
  · simp [csvRows, csvFlattened]
  · intro i hi hr
    simp [csvRows, csvFlattened]

/-- Witness for C8 at two concrete flattened records. -/
theorem claim_C8_witness :
    (csvRows (fun (x : Flat) => x) csvResultsEx).length = csvResultsEx.length ∧
    ("a" ∈ csvHeader (fun (x : Flat) => x) csvResultsEx ↔
      ∃ r ∈ csvResultsEx, "a" ∈ (remove_nan_values ((fun (x : Flat) => x) r)).map Prod.fst) := by
  have h := claim_C8_csv_layout Flat (fun x => x) csvResultsEx
  exact ⟨h.2.2.2.2.1, h.2.2.2.1 "a"⟩

/-- C9: when two records share a run identifier, the later record's result
silently overwrites the earlier one: `run_results` has one entry per
distinct identifier in first-seen order, and every lookup returns the
result built from the last record seen with that identifier. -/
theorem claim_C9_duplicate_overwrite (v : Verifier) (l : List BenchmarkRun) :
    dictKeys (accumulate_run_results v l) = firstSeen (l.map (fun r => r.run_id)) ∧
    (accumulate_run_results v l).length =
      (firstSeen (l.map (fun r => r.run_id))).length ∧
    (∀ (k : String) (r' : BenchmarkRun), lastKeyed l k = some r' →
      alookup (accumulate_run_results v l) k = some (runResultOf v r')) ∧
    (∀ k : String, lastKeyed l k = none →
      alookup (accumulate_run_results v l) k = none) := by
  have hkeys : dictKeys (accumulate_run_results v l) =
      firstSeen (l.map (fun r => r.run_id)) := by
    rw [accumulate_run_results, accumulate_go_keys]
    rfl
  refine ⟨hkeys, ?_, ?_, ?_⟩
  · rw [← hkeys]
    simp [dictKeys]
  · intro k r' h
    rw [accumulate_run_results, accumulate_go_lookup, h]
  · intro k h
    rw [accumulate_run_results, accumulate_go_lookup, h]
    rfl

/-- Witness for C9: the third record reuses identifier `r1`; the surviving
entry is built from it, and the mapping still has two entries. -/
theorem claim_C9_witness :
    alookup (accumulate_run_results vEx [rEx1, rEx2, rEx1dup]) "r1" =
      some (runResultOf vEx rEx1dup) ∧
    dictKeys (accumulate_run_results vEx [rEx1, rEx2, rEx1dup]) = ["r1", "r2"] := by
  have h := claim_C9_duplicate_overwrite vEx [rEx1, rEx2, rEx1dup]
  refine ⟨h.2.2.1 "r1" rEx1dup (by decide), ?_⟩
  rw [h.1]
  decide

/-- C10: every record contained in a workload-level result's run list has
its run identifier among the keys of `run_results`, so the category lookup
in the workload report always succeeds, and it yields the result of the
last record seen with that identifier. -/
theorem claim_C10_member_lookup (v : Verifier) (l : List BenchmarkRun)
    (kl : (String × Option String) × Result)
    (h : kl ∈ accumulate_workload_results v l)
    (rs : List BenchmarkRun) (hrs : kl.2.benchmark_run = RunsField.group rs)
    (r : BenchmarkRun) (hr : r ∈ rs) :
    r.run_id ∈ dictKeys (accumulate_run_results v l) ∧
    (lastKeyed l r.run_id).isSome = true ∧
    alookup (accumulate_run_results v l) r.run_id =
      (lastKeyed l r.run_id).map (runResultOf v) := by
  obtain ⟨heq, hne⟩ := accumulate_workload_mem v l kl h
  have hrs2 : rs = l.filter (fun r => wkey r = kl.1) := by
    rw [heq] at hrs
    exact (RunsField.group.inj hrs).symm
  have hrl : r ∈ l := by
    rw [hrs2] at hr
    exact (List.mem_filter.mp hr).1
  obtain ⟨r', hr'⟩ := lastKeyed_isSome_of_mem l r hrl
  refine ⟨?_, by rw [hr']; rfl, ?_⟩
  · rw [accumulate_run_results, accumulate_go_keys]
    exact (mem_firstSeenFrom _ _ _).mpr (Or.inr (List.mem_map.mpr ⟨r, hrl, rfl⟩))
  · rw [accumulate_run_results, accumulate_go_lookup, hr']
    rfl

/-- Witness for C10 at the workload of `[rEx1, rEx2]` and member `rEx1`. -/
theorem claim_C10_witness :
    rEx1.run_id ∈ dictKeys (accumulate_run_results vEx [rEx1, rEx2]) ∧
    alookup (accumulate_run_results vEx [rEx1, rEx2]) rEx1.run_id =
      (lastKeyed [rEx1, rEx2] rEx1.run_id).map (runResultOf vEx) := by
  have h := claim_C10_member_lookup vEx [rEx1, rEx2]
    (("unet3d", some "a100"), wkResultOf vEx [rEx1, rEx2]) (by decide)
    [rEx1, rEx2] (by decide) rEx1 (by decide)
  exact ⟨h.1, h.2.2⟩

end MLPStorage
